import Mathlib

/-!
# FairPlay KSM service (`abobacode/afps`): the HTTP boundary

A shallow embedding of `api/api.go`: the `POST /fps/license` handler registered in
`Main`, and `ReadASk`.  Go strings and byte slices are lists of bytes.  The standard
library routines the handler calls (`encoding/base64`, `encoding/hex`,
`strings.Contains`, `strings.ReplaceAll`) are embedded after their Go implementation;
the `ksm` engine and echo's request binder are not part of the repository sources and
enter as parameters.
-/

namespace Afps

/-- A Go `byte`. -/
abbrev Byte := Fin 256

/-- A Go `[]byte`, and also a Go `string` (a read-only byte sequence). -/
abbrev Bytes := List Byte

/-- The byte of an ASCII character literal. -/
def chr (c : Char) : Byte := Fin.ofNat c.toNat

/-- The bytes of an ASCII string literal. -/
def ascii (s : String) : Bytes := s.toList.map chr

/-! ## `strings` -/

/-- Go `strings.Contains(s, substr)` for a one-byte `substr`, the only use in `api.go`. -/
def Contains (s : Bytes) (c : Byte) : Bool := s.elem c

/-- Go `strings.ReplaceAll(s, old, new)` for one-byte `old` and `new`. -/
def ReplaceAll (s : Bytes) (old new : Byte) : Bytes :=
  s.map (fun c => if c = old then new else c)

/-! ## `encoding/base64` -/

/-- Go `base64.Encoding`: the 64-byte alphabet and the padding character.  Both encodings
used by the handler are padded and non-strict. -/
structure Encoding where
  encode : Bytes
  padChar : Byte
  deriving DecidableEq

/-- Go `encodeStd`. -/
def encodeStd : Bytes :=
  ascii ("ABCDEFGHIJKLMNOPQRSTUVWXYZabcdefghijklmnopqrstuvwxyz0123456789+/")

/-- Go `encodeURL`. -/
def encodeURL : Bytes :=
  ascii ("ABCDEFGHIJKLMNOPQRSTUVWXYZabcdefghijklmnopqrstuvwxyz0123456789-_")

/-- Go `StdPadding`, the character `=`. -/
def StdPadding : Byte := chr '='

/-- Go `base64.StdEncoding`. -/
def StdEncoding : Encoding := ⟨encodeStd, StdPadding⟩

/-- Go `base64.URLEncoding`. -/
def URLEncoding : Encoding := ⟨encodeURL, StdPadding⟩

/-- The alphabet lookup `enc.encode[i]`. -/
def Encoding.encodeAt (enc : Encoding) (i : Nat) : Byte := enc.encode.getD i 0

/-- Go `enc.decodeMap[c]`: the index of `c` in the alphabet, `0xff` for every other byte. -/
def Encoding.decodeMap (enc : Encoding) (c : Byte) : Nat :=
  let i := enc.encode.indexOf c
  if i < enc.encode.length then i else 0xff

/-- Go `(*Encoding).EncodeToString`: three source bytes become four alphabet characters;
a remainder of one or two bytes is padded with `padChar`. -/
def Encoding.EncodeToString (enc : Encoding) : Bytes → Bytes
  | a :: b :: c :: rest =>
    let val := a.val <<< 16 ||| b.val <<< 8 ||| c.val
    enc.encodeAt (val >>> 18 &&& 0x3F) :: enc.encodeAt (val >>> 12 &&& 0x3F) ::
      enc.encodeAt (val >>> 6 &&& 0x3F) :: enc.encodeAt (val &&& 0x3F) ::
      Encoding.EncodeToString enc rest
  | [a, b] =>
    let val := a.val <<< 16 ||| b.val <<< 8
    [enc.encodeAt (val >>> 18 &&& 0x3F), enc.encodeAt (val >>> 12 &&& 0x3F),
      enc.encodeAt (val >>> 6 &&& 0x3F), enc.padChar]
  | [a] =>
    let val := a.val <<< 16
    [enc.encodeAt (val >>> 18 &&& 0x3F), enc.encodeAt (val >>> 12 &&& 0x3F),
      enc.padChar, enc.padChar]
  | [] => []

/-- Go `base64.CorruptInputError`: the offset of the offending input byte. -/
structure CorruptInputError where
  offset : Nat
  deriving DecidableEq

/-- The tail of `decodeQuantum`: "Convert 4x 6bit source bytes into 3 bytes" and keep the
first `dlen - 1` of them. -/
def quantumBytes (d0 d1 d2 d3 dlen : Nat) : Bytes :=
  let val := d0 <<< 18 ||| d1 <<< 12 ||| d2 <<< 6 ||| d3
  let b2 : Byte := Fin.ofNat (val >>> 0)
  let b1 : Byte := Fin.ofNat (val >>> 8)
  let b0 : Byte := Fin.ofNat (val >>> 16)
  match dlen with
  | 4 => [b0, b1, b2]
  | 3 => [b0, b1]
  | 2 => [b0]
  | _ => []

/-- The loop "skip over newlines" of `decodeQuantum`: advances `si` past `\n` and `\r`. -/
def skipNewlines : Nat → Bytes → Nat × Bytes
  | si, [] => (si, [])
  | si, c :: cs => if c = chr '\n' ∨ c = chr '\r' then skipNewlines (si + 1) cs else (si, c :: cs)

/-- After the padding of a quantum: skip newlines; anything left is "trailing garbage". -/
def afterPadding (si : Nat) (cs : Bytes) : Option CorruptInputError :=
  match skipNewlines si cs with
  | (_, []) => none
  | (si, _ :: _) => some ⟨si⟩

/-- Go `(*Encoding).Decode` for a padded, non-strict encoding, with the loop over quanta
and the loop of `decodeQuantum` over the up to four characters of a quantum run as one
pass over the input.  `si` is the offset of the next input byte, `j` the number of
characters of the current quantum already read, `d0 d1 d2` their values, `dst` the bytes
decoded so far.  The result is Go's `(dst[:n], err)`. -/
def Encoding.decodeFrom (enc : Encoding) :
    Bytes → Nat → Nat → Nat → Nat → Nat → Bytes → Bytes × Option CorruptInputError
  | [], si, j, _, _, _, dst =>
    if j = 0 then (dst, none) else (dst, some ⟨si - j⟩)
  | c :: cs, si, j, d0, d1, d2, dst =>
    let si := si + 1
    let out := enc.decodeMap c
    if out ≠ 0xff then
      if j = 0 then enc.decodeFrom cs si 1 out 0 0 dst
      else if j = 1 then enc.decodeFrom cs si 2 d0 out 0 dst
      else if j = 2 then enc.decodeFrom cs si 3 d0 d1 out dst
      else enc.decodeFrom cs si 0 0 0 0 (dst ++ quantumBytes d0 d1 d2 out 4)
    else if c = chr '\n' ∨ c = chr '\r' then
      enc.decodeFrom cs si j d0 d1 d2 dst
    else if c ≠ enc.padChar then
      (dst, some ⟨si - 1⟩)
    else if j = 0 ∨ j = 1 then
      (dst, some ⟨si - 1⟩)
    else if j = 2 then
      match skipNewlines si cs with
      | (si, []) => (dst, some ⟨si⟩)
      | (si, c2 :: cs2) =>
        if c2 ≠ enc.padChar then (dst, some ⟨si - 1⟩)
        else (dst ++ quantumBytes d0 d1 0 0 2, afterPadding (si + 1) cs2)
    else
      (dst ++ quantumBytes d0 d1 d2 0 3, afterPadding si cs)

/-- Go `(*Encoding).DecodeString`. -/
def Encoding.DecodeString (enc : Encoding) (s : Bytes) : Bytes × Option CorruptInputError :=
  enc.decodeFrom s 0 0 0 0 0 []

/-! ## `encoding/hex` -/

/-- Go `hex.InvalidByteError` and `hex.ErrLength`. -/
inductive HexError
  | InvalidByteError (b : Byte)
  | ErrLength
  deriving DecidableEq

/-- Go `fromHexChar` (the `reverseHexTable` lookup): the value of a hexadecimal digit,
upper or lower case; `none` for every other byte. -/
def fromHexChar (c : Byte) : Option Nat :=
  if chr '0' ≤ c ∧ c ≤ chr '9' then some (c.val - (chr '0').val)
  else if chr 'a' ≤ c ∧ c ≤ chr 'f' then some (c.val - (chr 'a').val + 10)
  else if chr 'A' ≤ c ∧ c ≤ chr 'F' then some (c.val - (chr 'A').val + 10)
  else none

/-- Go `hex.Decode`, run over the pairs of the input; `dst` holds the bytes decoded so
far.  The result is Go's `(src[:n], err)`. -/
def hexDecodeFrom : Bytes → Bytes → Bytes × Option HexError
  | p :: q :: rest, dst =>
    match fromHexChar p with
    | none => (dst, some (.InvalidByteError p))
    | some a =>
      match fromHexChar q with
      | none => (dst, some (.InvalidByteError q))
      | some b => hexDecodeFrom rest (dst ++ [Fin.ofNat (a <<< 4 ||| b)])
  | [p], dst =>
    match fromHexChar p with
    | none => (dst, some (.InvalidByteError p))
    | some _ => (dst, some .ErrLength)
  | [], dst => (dst, none)

/-- Go `hex.DecodeString`. -/
def hexDecodeString (s : Bytes) : Bytes × Option HexError := hexDecodeFrom s []

/-- Go `hextable`. -/
def hextable : Bytes := ascii ("0123456789abcdef")

/-- Go `hex.EncodeToString`: two lowercase digits per byte, high nibble first. -/
def hexEncodeToString : Bytes → Bytes
  | [] => []
  | v :: rest =>
    hextable.getD (v.val >>> 4) 0 :: hextable.getD (v.val &&& 0x0f) 0 :: hexEncodeToString rest

/-! ## `config` and `ReadASk` -/

/-- The struct `config.FairPlay`. -/
structure FairPlay where
  Certificate : Bytes
  Private : Bytes
  Ask : Bytes

/-- The struct `config.Config` (with its embedded `Server`). -/
structure Config where
  FairPlay : FairPlay

/-- `ReadASk` of `api.go`: hex-decodes the configured `ask`; `.error err` is `panic(err)`. -/
def ReadASk (cfg : Config) : Except HexError Bytes :=
  let askEnvVar := cfg.FairPlay.Ask
  match hexDecodeString askEnvVar with
  | (_, some err) => .error err
  | (ask, none) => .ok ask

/-! ## The `POST /fps/license` handler -/

/-- The struct `SpcMessage`. -/
structure SpcMessage where
  Spc : Bytes
  AssetID : Bytes

/-- The struct `ErrorMessage`. -/
structure ErrorMessage where
  Status : Int
  Message : String
  deriving DecidableEq

/-- The struct `CkcResult`. -/
structure CkcResult where
  Ckc : Bytes
  deriving DecidableEq

/-- What the handler reads from the echo context of one request: the `Content-Type`
request header (`none` when absent) and the outcome of `ctx.Bind(spcMessage)`, whose
error carries the text `err.Error()`.  The binder belongs to echo and is not modelled. -/
structure Context where
  ContentType : Option String
  Bind : Except String SpcMessage

/-- Go `ctx.Request().Header.Get("Content-Type")`: the empty string for an absent header. -/
def Context.HeaderGet (ctx : Context) : String := ctx.ContentType.getD ""

/-- The engine `ksm.Ksm`, of which the handler uses `GenCKC` only.  The package is not in
the repository sources; the answer of the engine to the one call a request makes is a
parameter, `ε` being the type of its errors. -/
structure Ksm (ε : Type) where
  GenCKC : Bytes → Except ε Bytes

/-- The value serialised by `ctx.JSON`. -/
inductive JsonValue
  | errorMessage (m : ErrorMessage)
  | ckcResult (r : CkcResult)
  | message (text : String)
  deriving DecidableEq

/-- A response written through the echo context: `ctx.JSON(code, i)` or
`ctx.Blob(code, contentType, b)`. -/
inductive Response
  | JSON (code : Nat) (i : JsonValue)
  | Blob (code : Nat) (contentType : String) (b : Bytes)
  deriving DecidableEq

/-- The HTTP status of a response. -/
def Response.code : Response → Nat
  | .JSON code _ => code
  | .Blob code _ _ => code

/-- The calls the handler makes to the base64 codec and to the engine, in order. -/
inductive Call
  | DecodeString (enc : Encoding) (s : Bytes)
  | GenCKC (playback : Bytes)
  | EncodeToString (enc : Encoding) (src : Bytes)
  deriving DecidableEq

/-- The argument of `panic`: a base64 decode error or an engine error. -/
inductive PanicValue (ε : Type)
  | base64 (err : CorruptInputError)
  | ksm (err : ε)

/-- One execution of the handler: the calls made and how it ends, with the response
returned or, as `.error`, with the value it panics with. -/
structure Run (ε : Type) where
  calls : List Call
  result : Except (PanicValue ε) Response

/-- The byte sequences handed to the engine during a run: the arguments of its `GenCKC`
calls, in order. -/
def Run.handed {ε : Type} (r : Run ε) : List Bytes :=
  r.calls.filterMap (fun c => match c with
    | .GenCKC playback => some playback
    | _ => none)

/-- Lines 99-120 of `api.go`: the base64 variant chosen from the characters of `Spc`.
The three branches differ only in the value of `base64EncodingMethod`, in the encoding
whose `DecodeString` is called and in the text passed to it, which are returned here;
the decode and its `panic(err)` are in `license`. -/
def selectVariant (Spc : Bytes) : String × Encoding × Bytes :=
  if Contains Spc (chr '-') || Contains Spc (chr '_') then
    ("URL", URLEncoding, Spc)
  else if Contains Spc (chr ' ') && Contains Spc (chr '/') then
    ("STD", StdEncoding, ReplaceAll Spc (chr ' ') (chr '+'))
  else
    ("STD", StdEncoding, Spc)

/-- Lines 129-136 of `api.go`: the switch on `base64EncodingMethod`. -/
def resultEncoding (base64EncodingMethod : String) : Encoding :=
  if base64EncodingMethod = "URL" then URLEncoding
  else if base64EncodingMethod = "STD" then StdEncoding
  else StdEncoding

/-- Lines 140-147 of `api.go`: the switch on `contentType`. -/
def respond (contentType : String) (result : Bytes) : Response :=
  if contentType = "application/json" then
    .JSON 200 (.ckcResult ⟨result⟩)
  else if contentType = "application/x-www-form-urlencoded" then
    .Blob 200 "application/x-www-form-urlencoded" (ascii ("<ckc>") ++ result ++ ascii ("</ckc>"))
  else
    .Blob 200 "application/x-www-form-urlencoded" (ascii ("<ckc>") ++ result ++ ascii ("</ckc>"))

/-- The handler of `POST /fps/license` (lines 86-148 of `api.go`).  The `fmt.Println`
calls, which only write to standard output, are left out. -/
def license {ε : Type} (k : Ksm ε) (ctx : Context) : Run ε :=
  let contentType := ctx.HeaderGet
  match ctx.Bind with
  | .error err => ⟨[], .ok (.JSON 400 (.errorMessage ⟨400, err⟩))⟩
  | .ok spcMessage =>
    match selectVariant spcMessage.Spc with
    | (base64EncodingMethod, enc, s) =>
      match enc.DecodeString s with
      | (_, some err) => ⟨[.DecodeString enc s], .error (.base64 err)⟩
      | (playback, none) =>
        match k.GenCKC playback with
        | .error err => ⟨[.DecodeString enc s, .GenCKC playback], .error (.ksm err)⟩
        | .ok ckc =>
          let out := resultEncoding base64EncodingMethod
          let result := out.EncodeToString ckc
          ⟨[.DecodeString enc s, .GenCKC playback, .EncodeToString out ckc],
            .ok (respond contentType result)⟩

/-- Echo's `middleware.Recover()` (installed at line 69) with the default HTTP error
handler: a panic of the handler with a value that is no echo `HTTPError`, as are the
base64 and the engine errors, is answered with status 500 and a JSON object whose
`message` is `Internal Server Error`; a returned response passes unchanged. -/
def Recover {ε : Type} (r : Except (PanicValue ε) Response) : Response :=
  match r with
  | .ok resp => resp
  | .error _ => .JSON 500 (.message "Internal Server Error")

/-- The base64 text carried by a response: the `ckc` field of a JSON `CkcResult`, or
the text between `<ckc>` and `</ckc>` of a blob. -/
def ckcText : Response → Option Bytes
  | .JSON _ (.ckcResult r) => some r.Ckc
  | .JSON _ _ => none
  | .Blob _ _ b =>
    if b.take 5 = ascii ("<ckc>") ∧ b.drop (b.length - 6) = ascii ("</ckc>") then
      some ((b.drop 5).take (b.length - 11))
    else none

/-! ## Predicates used in the statements -/

/-- What the codec needs of an alphabet: `decodeMap` inverts the alphabet lookup, and
the padding character is neither in the alphabet nor a newline. -/
def Encoding.WellFormed (enc : Encoding) : Prop :=
  (∀ i : Fin 64, enc.decodeMap (enc.encodeAt i.val) = i.val) ∧
    enc.decodeMap enc.padChar = 0xff ∧ enc.padChar ≠ chr '\n' ∧ enc.padChar ≠ chr '\r'

instance (enc : Encoding) : Decidable enc.WellFormed := by
  unfold Encoding.WellFormed; infer_instance

/-- A byte that is neither in the alphabet, nor a newline, nor the padding character. -/
def Encoding.Foreign (enc : Encoding) (c : Byte) : Prop :=
  enc.decodeMap c = 0xff ∧ c ≠ chr '\n' ∧ c ≠ chr '\r' ∧ c ≠ enc.padChar

instance (enc : Encoding) (c : Byte) : Decidable (enc.Foreign c) := by
  unfold Encoding.Foreign; infer_instance

/-- A lowercase hexadecimal digit, `0`-`9` or `a`-`f`. -/
def IsLowerHex (c : Byte) : Prop :=
  (chr '0' ≤ c ∧ c ≤ chr '9') ∨ (chr 'a' ≤ c ∧ c ≤ chr 'f')

/-- A hexadecimal digit of either case. -/
def IsHexDigit (c : Byte) : Prop :=
  IsLowerHex c ∨ (chr 'A' ≤ c ∧ c ≤ chr 'F')

instance (c : Byte) : Decidable (IsLowerHex c) := by unfold IsLowerHex; infer_instance

instance (c : Byte) : Decidable (IsHexDigit c) := by unfold IsHexDigit; infer_instance

/-! ## Sample engines and requests -/

/-- An engine that answers every SPC with the CKC bytes `fb ff be`. -/
def sampleKsm : Ksm String := ⟨fun _ => .ok [251, 255, 190]⟩

/-- An engine that rejects every SPC. -/
def failingKsm : Ksm String := ⟨fun _ => .error "ksm: engine failure"⟩

/-- A request with `Content-Type: application/json` whose body binds to the SPC `spc`. -/
def jsonRequest (spc : String) : Context := ⟨some "application/json", .ok ⟨ascii spc, []⟩⟩

/-- A request without `Content-Type` header that binds to the SPC `spc`. -/
def plainRequest (spc : String) : Context := ⟨none, .ok ⟨ascii spc, []⟩⟩

/-- A request whose body does not bind. -/
def unboundRequest : Context := ⟨some "application/json", .error "unexpected EOF"⟩

/-! ## Bit-level arithmetic -/

theorem or_eq_add_of_dvd (k x y : Nat) (hx : 2 ^ k ∣ x) (hy : y < 2 ^ k) : x ||| y = x + y := by
  obtain ⟨q, rfl⟩ := hx
  exact (Nat.mul_add_lt_is_or hy q).symm

theorem and_0x3F (x : Nat) : x &&& 0x3F = x % 64 := Nat.and_pow_two_sub_one_eq_mod x 6

theorem and_0x0f (x : Nat) : x &&& 0x0f = x % 16 := Nat.and_pow_two_sub_one_eq_mod x 4

theorem pack3 (a b c : Nat) (hb : b < 256) (hc : c < 256) :
    a <<< 16 ||| b <<< 8 ||| c = a * 65536 + b * 256 + c := by
  rw [Nat.shiftLeft_eq, Nat.shiftLeft_eq]
  rw [or_eq_add_of_dvd 16 (a * 2 ^ 16) (b * 2 ^ 8) (Dvd.intro_left a rfl) (by omega)]
  rw [or_eq_add_of_dvd 8 (a * 2 ^ 16 + b * 2 ^ 8) c (by omega) (by omega)]
  omega

theorem pack4 (d0 d1 d2 d3 : Nat) (h1 : d1 < 64) (h2 : d2 < 64) (h3 : d3 < 64) :
    d0 <<< 18 ||| d1 <<< 12 ||| d2 <<< 6 ||| d3 = d0 * 262144 + d1 * 4096 + d2 * 64 + d3 := by
  rw [Nat.shiftLeft_eq, Nat.shiftLeft_eq, Nat.shiftLeft_eq]
  rw [or_eq_add_of_dvd 18 (d0 * 2 ^ 18) (d1 * 2 ^ 12) (Dvd.intro_left d0 rfl) (by omega)]
  rw [or_eq_add_of_dvd 12 (d0 * 2 ^ 18 + d1 * 2 ^ 12) (d2 * 2 ^ 6) (by omega) (by omega)]
  rw [or_eq_add_of_dvd 6 (d0 * 2 ^ 18 + d1 * 2 ^ 12 + d2 * 2 ^ 6) d3 (by omega) (by omega)]
  omega

theorem quantumBytes_three (a b c : Byte) :
    quantumBytes ((a.val <<< 16 ||| b.val <<< 8 ||| c.val) >>> 18 &&& 0x3F)
      ((a.val <<< 16 ||| b.val <<< 8 ||| c.val) >>> 12 &&& 0x3F)
      ((a.val <<< 16 ||| b.val <<< 8 ||| c.val) >>> 6 &&& 0x3F)
      ((a.val <<< 16 ||| b.val <<< 8 ||| c.val) &&& 0x3F) 4 = [a, b, c] := by
  have ha := a.isLt
  have hb := b.isLt
  have hc := c.isLt
  simp only [quantumBytes, and_0x3F, Nat.shiftRight_eq_div_pow, pack3 _ _ _ hb hc]
  rw [pack4 _ _ _ _ (Nat.mod_lt _ (by norm_num)) (Nat.mod_lt _ (by norm_num)) (Nat.mod_lt _ (by norm_num))]
  simp only [List.cons.injEq, and_true]
  refine ⟨?_, ?_, ?_⟩ <;> apply Fin.ext <;> simp only [Fin.ofNat, Fin.val_mk] <;> omega

theorem quantumBytes_two (a b : Byte) :
    quantumBytes ((a.val <<< 16 ||| b.val <<< 8) >>> 18 &&& 0x3F)
      ((a.val <<< 16 ||| b.val <<< 8) >>> 12 &&& 0x3F)
      ((a.val <<< 16 ||| b.val <<< 8) >>> 6 &&& 0x3F) 0 3 = [a, b] := by
  have ha := a.isLt
  have hb := b.isLt
  have h : a.val <<< 16 ||| b.val <<< 8 = a.val * 65536 + b.val * 256 := by
    rw [Nat.shiftLeft_eq, Nat.shiftLeft_eq]
    rw [or_eq_add_of_dvd 16 (a.val * 2 ^ 16) (b.val * 2 ^ 8) (Dvd.intro_left a.val rfl) (by omega)]
    omega
  simp only [quantumBytes, and_0x3F, Nat.shiftRight_eq_div_pow, h]
  rw [pack4 _ _ _ _ (Nat.mod_lt _ (by norm_num)) (Nat.mod_lt _ (by norm_num)) (by norm_num)]
  simp only [List.cons.injEq, and_true]
  refine ⟨?_, ?_⟩ <;> apply Fin.ext <;> simp only [Fin.ofNat, Fin.val_mk] <;> omega

theorem quantumBytes_one (a : Byte) :
    quantumBytes ((a.val <<< 16) >>> 18 &&& 0x3F) ((a.val <<< 16) >>> 12 &&& 0x3F) 0 0 2 = [a] := by
  have ha := a.isLt
  have h : a.val <<< 16 = a.val * 65536 := by rw [Nat.shiftLeft_eq]
  simp only [quantumBytes, and_0x3F, Nat.shiftRight_eq_div_pow, h]
  rw [pack4 _ _ _ _ (Nat.mod_lt _ (by norm_num)) (by norm_num) (by norm_num)]
  simp only [List.cons.injEq, and_true]
  apply Fin.ext
  simp only [Fin.ofNat, Fin.val_mk]
  omega

/-- Induction over a byte sequence three bytes at a time. -/
theorem induct3 {P : Bytes → Prop} (h0 : P []) (h1 : ∀ a, P [a]) (h2 : ∀ a b, P [a, b])
    (h3 : ∀ a b c rest, P rest → P (a :: b :: c :: rest)) : ∀ x, P x
  | [] => h0
  | [a] => h1 a
  | [a, b] => h2 a b
  | a :: b :: c :: rest => h3 a b c rest (induct3 h0 h1 h2 h3 rest)

/-! ## The base64 alphabets -/

theorem StdEncoding_wellFormed : StdEncoding.WellFormed := by decide

theorem URLEncoding_wellFormed : URLEncoding.WellFormed := by decide

theorem decodeMap_encodeAt {enc : Encoding} (h : enc.WellFormed) (n : Nat) :
    enc.decodeMap (enc.encodeAt (n % 64)) = n % 64 :=
  h.1 ⟨n % 64, Nat.mod_lt _ (by norm_num)⟩

theorem decodeFrom_sextet {enc : Encoding} (h : enc.WellFormed) (n : Nat) (cs : Bytes)
    (si j d0 d1 d2 : Nat) (dst : Bytes) :
    enc.decodeFrom (enc.encodeAt (n % 64) :: cs) si j d0 d1 d2 dst =
      if j = 0 then enc.decodeFrom cs (si + 1) 1 (n % 64) 0 0 dst
      else if j = 1 then enc.decodeFrom cs (si + 1) 2 d0 (n % 64) 0 dst
      else if j = 2 then enc.decodeFrom cs (si + 1) 3 d0 d1 (n % 64) dst
      else enc.decodeFrom cs (si + 1) 0 0 0 0 (dst ++ quantumBytes d0 d1 d2 (n % 64) 4) := by
  have hlt : n % 64 < 64 := Nat.mod_lt _ (by norm_num)
  have hne : n % 64 ≠ 0xff := by omega
  rw [Encoding.decodeFrom]
  simp only [decodeMap_encodeAt h, hne, ne_eq, not_false_eq_true, if_true]

theorem decodeFrom_EncodeToString {enc : Encoding} (h : enc.WellFormed) (x : Bytes) :
    ∀ (si d0 d1 d2 : Nat) (dst : Bytes),
      enc.decodeFrom (enc.EncodeToString x) si 0 d0 d1 d2 dst = (dst ++ x, none) := by
  induction x using induct3 with
  | h3 a b c rest ih =>
    intro si d0 d1 d2 dst
    have hq := quantumBytes_three a b c
    simp only [and_0x3F] at hq
    simp only [Encoding.EncodeToString, and_0x3F, decodeFrom_sextet h]
    simp only [OfNat.ofNat_ne_zero, OfNat.ofNat_ne_one, if_true, if_false, Nat.reduceEqDiff, hq, ih,
      List.append_assoc, List.cons_append, List.nil_append]
  | h2 a b =>
    intro si d0 d1 d2 dst
    have hq := quantumBytes_two a b
    simp only [and_0x3F] at hq
    simp only [Encoding.EncodeToString, and_0x3F, decodeFrom_sextet h]
    simp only [Encoding.decodeFrom, h.2.1, h.2.2.1, h.2.2.2, afterPadding, skipNewlines, hq,
      OfNat.ofNat_ne_zero, OfNat.ofNat_ne_one, if_true, if_false, Nat.reduceEqDiff, ne_eq,
      not_true_eq_false, or_self, not_false_eq_true]
  | h1 a =>
    intro si d0 d1 d2 dst
    have hq := quantumBytes_one a
    simp only [and_0x3F] at hq
    simp only [Encoding.EncodeToString, and_0x3F, decodeFrom_sextet h]
    simp only [Encoding.decodeFrom, h.2.1, h.2.2.1, h.2.2.2, afterPadding, skipNewlines, hq,
      OfNat.ofNat_ne_zero, OfNat.ofNat_ne_one, if_true, if_false, Nat.reduceEqDiff, ne_eq,
      not_true_eq_false, or_self, not_false_eq_true]
  | h0 =>
    intro si d0 d1 d2 dst
    simp [Encoding.EncodeToString, Encoding.decodeFrom]

/-- Decoding inverts encoding, for both encodings of the handler. -/
theorem DecodeString_EncodeToString {enc : Encoding} (h : enc.WellFormed) (x : Bytes) :
    enc.DecodeString (enc.EncodeToString x) = (x, none) := by
  simpa [Encoding.DecodeString] using decodeFrom_EncodeToString h x 0 0 0 0 []

/-! ## Bytes no base64 text may contain -/

theorem mem_skipNewlines (c : Byte) (h1 : c ≠ chr '\n') (h2 : c ≠ chr '\r') :
    ∀ (cs : Bytes) (si : Nat), c ∈ cs → c ∈ (skipNewlines si cs).2 := by
  intro cs
  induction cs with
  | nil => intro si h; simp at h
  | cons x xs ih =>
    intro si h
    unfold skipNewlines
    split
    · next hx =>
      have hne : c ≠ x := by
        rcases hx with hx | hx
        · rw [hx]; exact h1
        · rw [hx]; exact h2
      rcases List.mem_cons.mp h with h | h
      · exact absurd h hne
      · exact ih (si + 1) h
    · exact h

theorem afterPadding_ne_none (c : Byte) (h1 : c ≠ chr '\n') (h2 : c ≠ chr '\r')
    (cs : Bytes) (si : Nat) (h : c ∈ cs) : afterPadding si cs ≠ none := by
  have hm := mem_skipNewlines c h1 h2 cs si h
  unfold afterPadding
  split
  · next heq => rw [heq] at hm; simp at hm
  · simp

/-- Decoding a text with a foreign byte ends in a `CorruptInputError`, whatever the
state of the decoder. -/
theorem decodeFrom_foreign (enc : Encoding) (c : Byte) (hc : enc.Foreign c) :
    ∀ (s : Bytes), c ∈ s → ∀ (si j d0 d1 d2 : Nat) (dst : Bytes),
      (enc.decodeFrom s si j d0 d1 d2 dst).2 ≠ none := by
  obtain ⟨hmap, hn, hr, hp⟩ := hc
  intro s
  induction s with
  | nil => intro h; simp at h
  | cons x xs ih =>
    intro h si j d0 d1 d2 dst
    unfold Encoding.decodeFrom
    simp only
    split
    · next hout =>
      have hx : c ∈ xs := by
        rcases List.mem_cons.mp h with h | h
        · rw [← h, hmap] at hout; exact absurd rfl hout
        · exact h
      split
      · exact ih hx _ _ _ _ _ _
      · split
        · exact ih hx _ _ _ _ _ _
        · split
          · exact ih hx _ _ _ _ _ _
          · exact ih hx _ _ _ _ _ _
    · split
      · next hnl =>
        have hx : c ∈ xs := by
          rcases List.mem_cons.mp h with h | h
          · rw [← h] at hnl
            rcases hnl with hnl | hnl
            · exact absurd hnl hn
            · exact absurd hnl hr
          · exact h
        exact ih hx _ _ _ _ _ _
      · split
        · simp
        · next hpad =>
          have hxp : x = enc.padChar := by simpa using hpad
          have hx : c ∈ xs := by
            rcases List.mem_cons.mp h with h | h
            · rw [h, hxp] at hp; exact absurd rfl hp
            · exact h
          split
          · simp
          · split
            · have hm := mem_skipNewlines c hn hr xs (si + 1) hx
              split
              · next heq => rw [heq] at hm; simp at hm
              · next si2 c2 cs2 heq =>
                rw [heq] at hm
                split
                · simp
                · next hc2 =>
                  have hc2p : c2 = enc.padChar := by simpa using hc2
                  have hcs2 : c ∈ cs2 := by
                    rcases List.mem_cons.mp hm with hm | hm
                    · rw [hm, hc2p] at hp; exact absurd rfl hp
                    · exact hm
                  exact afterPadding_ne_none c hn hr cs2 _ hcs2
            · exact afterPadding_ne_none c hn hr xs _ hx

theorem DecodeString_foreign (enc : Encoding) (c : Byte) (hc : enc.Foreign c) (s : Bytes)
    (h : c ∈ s) : (enc.DecodeString s).2 ≠ none :=
  decodeFrom_foreign enc c hc s h 0 0 0 0 0 []

theorem URLEncoding_foreign :
    URLEncoding.Foreign (chr '+') ∧ URLEncoding.Foreign (chr '/') ∧
      URLEncoding.Foreign (chr ' ') := by decide

/-! ## Hexadecimal digits -/

/-- Induction over a byte sequence two bytes at a time. -/
theorem induct2 {P : Bytes → Prop} (h0 : P []) (h1 : ∀ a, P [a])
    (h2 : ∀ a b rest, P rest → P (a :: b :: rest)) : ∀ x, P x
  | [] => h0
  | [a] => h1 a
  | a :: b :: rest => h2 a b rest (induct2 h0 h1 h2 rest)

set_option maxRecDepth 100000 in
theorem fromHexChar_facts : ∀ c : Byte,
    (IsHexDigit c ↔ (fromHexChar c).isSome = true) ∧ (fromHexChar c).getD 0 < 16 ∧
      (IsLowerHex c → hextable.getD ((fromHexChar c).getD 0) 0 = c) := by
  decide

theorem fromHexChar_of_isHexDigit (c : Byte) (h : IsHexDigit c) :
    ∃ a, fromHexChar c = some a ∧ a < 16 ∧ (IsLowerHex c → hextable.getD a 0 = c) := by
  obtain ⟨h1, h2, h3⟩ := fromHexChar_facts c
  cases hf : fromHexChar c with
  | none => rw [hf] at h1; simp at h1; exact absurd h h1
  | some a =>
    rw [hf] at h2 h3
    exact ⟨a, rfl, h2, h3⟩

theorem fromHexChar_eq_none (c : Byte) (h : ¬ IsHexDigit c) : fromHexChar c = none := by
  obtain ⟨h1, _, _⟩ := fromHexChar_facts c
  cases hf : fromHexChar c with
  | none => rfl
  | some a => rw [hf] at h1; exact absurd (h1.mpr rfl) h

theorem nibbles (a b : Nat) (ha : a < 16) (hb : b < 16) :
    ((Fin.ofNat (a <<< 4 ||| b) : Byte).val >>> 4 = a) ∧
      ((Fin.ofNat (a <<< 4 ||| b) : Byte).val &&& 0x0f = b) := by
  have h : a <<< 4 ||| b = a * 16 + b := by
    rw [Nat.shiftLeft_eq, or_eq_add_of_dvd 4 (a * 2 ^ 4) b (Dvd.intro_left a rfl) (by omega)]
    omega
  rw [h, and_0x0f, Nat.shiftRight_eq_div_pow]
  simp only [Fin.ofNat, Fin.val_mk]
  constructor <;> omega

/-- A well-formed hexadecimal text decodes without error to half as many bytes; from a
lowercase text, to the bytes whose encoding is that text. -/
theorem hexDecodeFrom_wellFormed : ∀ (s : Bytes), s.length % 2 = 0 → (∀ c ∈ s, IsHexDigit c) →
    ∀ dst : Bytes, ∃ bs, hexDecodeFrom s dst = (dst ++ bs, none) ∧ 2 * bs.length = s.length ∧
      ((∀ c ∈ s, IsLowerHex c) → hexEncodeToString bs = s) := by
  intro s
  induction s using induct2 with
  | h0 => intro _ _ dst; exact ⟨[], by simp [hexDecodeFrom], rfl, fun _ => rfl⟩
  | h1 a => intro h; simp at h
  | h2 p q rest ih =>
    intro hlen hall dst
    obtain ⟨a, hpa, ha, hpl⟩ := fromHexChar_of_isHexDigit p (hall p (by simp))
    obtain ⟨b, hqb, hb, hql⟩ := fromHexChar_of_isHexDigit q (hall q (by simp))
    have hlen2 : rest.length % 2 = 0 := by
      simp only [List.length_cons] at hlen
      omega
    obtain ⟨bs, hbs, hl, henc⟩ :=
      ih hlen2 (fun c hc => hall c (by simp [hc])) (dst ++ [Fin.ofNat (a <<< 4 ||| b)])
    refine ⟨Fin.ofNat (a <<< 4 ||| b) :: bs, ?_, ?_, ?_⟩
    · simp only [hexDecodeFrom, hpa, hqb, hbs, List.append_assoc, List.singleton_append]
    · simp only [List.length_cons]
      omega
    · intro hlow
      obtain ⟨n1, n2⟩ := nibbles a b ha hb
      simp only [hexEncodeToString, n1, n2, hpl (hlow p (by simp)), hql (hlow q (by simp)),
        henc (fun c hc => hlow c (by simp [hc]))]

/-- A text of odd length or with a byte that is no hexadecimal digit is refused. -/
theorem hexDecodeFrom_illFormed : ∀ (s : Bytes),
    (s.length % 2 = 1 ∨ ∃ c ∈ s, ¬ IsHexDigit c) → ∀ dst : Bytes, (hexDecodeFrom s dst).2 ≠ none := by
  intro s
  induction s using induct2 with
  | h0 => intro h; simp at h
  | h1 a =>
    intro _ dst
    unfold hexDecodeFrom
    split <;> simp
  | h2 p q rest ih =>
    intro h dst
    unfold hexDecodeFrom
    split
    · simp
    · next a hpa =>
      split
      · simp
      · next b hqb =>
        apply ih
        rcases h with h | ⟨c, hc, hbad⟩
        · left
          simp only [List.length_cons] at h
          omega
        · right
          have hnone := fromHexChar_eq_none c hbad
          rcases List.mem_cons.mp hc with hc | hc
          · rw [hc, hpa] at hnone; simp at hnone
          · rcases List.mem_cons.mp hc with hc | hc
            · rw [hc, hqb] at hnone; simp at hnone
            · exact ⟨c, hc, hbad⟩

/-! ## The handler, path by path -/

theorem Contains_iff (s : Bytes) (c : Byte) : Contains s c = true ↔ c ∈ s := by
  simp [Contains]

theorem Contains_eq_false_iff (s : Bytes) (c : Byte) : Contains s c = false ↔ c ∉ s := by
  simp [Contains]

theorem ReplaceAll_of_not_Contains (s : Bytes) (old new : Byte) (h : Contains s old = false) :
    ReplaceAll s old new = s := by
  rw [Contains_eq_false_iff] at h
  unfold ReplaceAll
  induction s with
  | nil => rfl
  | cons x xs ih =>
    simp only [List.mem_cons, not_or] at h
    simp only [List.map_cons, List.cons.injEq]
    refine ⟨?_, ih h.2⟩
    rw [if_neg]
    exact fun hx => h.1 hx.symm

theorem license_bind_error {ε : Type} (k : Ksm ε) (ctx : Context) (err : String)
    (hb : ctx.Bind = .error err) :
    license k ctx = ⟨[], .ok (.JSON 400 (.errorMessage ⟨400, err⟩))⟩ := by
  unfold license
  simp only [hb]

theorem license_decode_error {ε : Type} (k : Ksm ε) (ctx : Context) (m : SpcMessage)
    (d : Bytes) (err : CorruptInputError) (hb : ctx.Bind = .ok m)
    (hd : (selectVariant m.Spc).2.1.DecodeString (selectVariant m.Spc).2.2 = (d, some err)) :
    license k ctx =
      ⟨[.DecodeString (selectVariant m.Spc).2.1 (selectVariant m.Spc).2.2],
        .error (.base64 err)⟩ := by
  unfold license
  simp only [hb, hd]

theorem license_engine_error {ε : Type} (k : Ksm ε) (ctx : Context) (m : SpcMessage)
    (playback : Bytes) (err : ε) (hb : ctx.Bind = .ok m)
    (hd : (selectVariant m.Spc).2.1.DecodeString (selectVariant m.Spc).2.2 = (playback, none))
    (hk : k.GenCKC playback = .error err) :
    license k ctx =
      ⟨[.DecodeString (selectVariant m.Spc).2.1 (selectVariant m.Spc).2.2, .GenCKC playback],
        .error (.ksm err)⟩ := by
  unfold license
  simp only [hb, hd, hk]

theorem license_success {ε : Type} (k : Ksm ε) (ctx : Context) (m : SpcMessage)
    (playback ckc : Bytes) (hb : ctx.Bind = .ok m)
    (hd : (selectVariant m.Spc).2.1.DecodeString (selectVariant m.Spc).2.2 = (playback, none))
    (hk : k.GenCKC playback = .ok ckc) :
    license k ctx =
      ⟨[.DecodeString (selectVariant m.Spc).2.1 (selectVariant m.Spc).2.2, .GenCKC playback,
          .EncodeToString (resultEncoding (selectVariant m.Spc).1) ckc],
        .ok (respond ctx.HeaderGet
          ((resultEncoding (selectVariant m.Spc).1).EncodeToString ckc))⟩ := by
  unfold license
  simp only [hb, hd, hk]

theorem selectVariant_cases (Spc : Bytes) :
    ((Contains Spc (chr '-') = true ∨ Contains Spc (chr '_') = true) ∧
        selectVariant Spc = ("URL", URLEncoding, Spc)) ∨
      ((Contains Spc (chr '-') = false ∧ Contains Spc (chr '_') = false) ∧
        (Contains Spc (chr ' ') = true ∧ Contains Spc (chr '/') = true) ∧
        selectVariant Spc = ("STD", StdEncoding, ReplaceAll Spc (chr ' ') (chr '+'))) ∨
      ((Contains Spc (chr '-') = false ∧ Contains Spc (chr '_') = false) ∧
        (Contains Spc (chr ' ') = false ∨ Contains Spc (chr '/') = false) ∧
        selectVariant Spc = ("STD", StdEncoding, Spc)) := by
  unfold selectVariant
  cases Contains Spc (chr '-') <;> cases Contains Spc (chr '_') <;>
    cases Contains Spc (chr ' ') <;> cases Contains Spc (chr '/') <;> simp

theorem resultEncoding_selectVariant (Spc : Bytes) :
    resultEncoding (selectVariant Spc).1 = (selectVariant Spc).2.1 := by
  rcases selectVariant_cases Spc with ⟨_, h⟩ | ⟨_, _, h⟩ | ⟨_, _, h⟩ <;> rw [h] <;> rfl

theorem selectVariant_wellFormed (Spc : Bytes) : (selectVariant Spc).2.1.WellFormed := by
  rcases selectVariant_cases Spc with ⟨_, h⟩ | ⟨_, _, h⟩ | ⟨_, _, h⟩ <;> rw [h]
  · exact URLEncoding_wellFormed
  · exact StdEncoding_wellFormed
  · exact StdEncoding_wellFormed

theorem URLEncoding_ne_StdEncoding : URLEncoding ≠ StdEncoding := by decide

theorem ckcText_respond (contentType : String) (result : Bytes) :
    ckcText (respond contentType result) = some result := by
  have hblob : ckcText (.Blob 200 "application/x-www-form-urlencoded"
      (ascii ("<ckc>") ++ result ++ ascii ("</ckc>"))) = some result := by
    have h5 : (ascii ("<ckc>")).length = 5 := rfl
    have h6 : (ascii ("</ckc>")).length = 6 := rfl
    have hlen : (ascii ("<ckc>") ++ result ++ ascii ("</ckc>")).length = result.length + 11 := by
      rw [List.length_append, List.length_append, h5, h6]
      omega
    have hp : (ascii ("<ckc>") ++ result ++ ascii ("</ckc>")).take 5 = ascii ("<ckc>") := by
      rw [List.append_assoc]
      exact List.take_left' h5
    have hs : (ascii ("<ckc>") ++ result ++ ascii ("</ckc>")).drop (result.length + 11 - 6) =
        ascii ("</ckc>") := by
      apply List.drop_left'
      rw [List.length_append, h5]
      omega
    have hmid : ((ascii ("<ckc>") ++ result ++ ascii ("</ckc>")).drop 5).take
        (result.length + 11 - 11) = result := by
      rw [List.append_assoc, List.drop_left' h5]
      apply List.take_left'
      omega
    simp only [ckcText, hlen, hp, hs, hmid, and_self, if_true]
  unfold respond
  split
  · rfl
  · split <;> exact hblob

/-! ## The claims -/

/-- C1, as stated, fails.  The SPC `AA A` has neither `-` nor `_`; with its space replaced
by `+` it is the valid standard base64 text `AA+A` of the bytes `00 0f 80`.  The handler
decodes the text with its space still in place: its only call is that decode, nothing is
handed to the engine, and it panics with the decode error at offset 2. -/
theorem C1_space_without_slash_is_kept :
    Contains (ascii ("AA A")) (chr '-') = false ∧ Contains (ascii ("AA A")) (chr '_') = false ∧
      StdEncoding.DecodeString (ReplaceAll (ascii ("AA A")) (chr ' ') (chr '+')) =
        ([0, 15, 128], none) ∧
      (license sampleKsm (plainRequest "AA A")).calls =
        [.DecodeString StdEncoding (ascii ("AA A"))] ∧
      (license sampleKsm (plainRequest "AA A")).handed = [] ∧
      (license sampleKsm (plainRequest "AA A")).result = .error (.base64 ⟨2⟩) :=
  ⟨by rfl, by rfl, by rfl, by rfl, by rfl, by rfl⟩

/-- C1, amended: for an SPC without `-` and `_` that has a `/` whenever it has a space,
if the SPC with every space replaced by `+` is valid standard base64, then the engine is
called once, with exactly the bytes that text decodes to. -/
theorem C1_spaces_replaced_when_slash {ε : Type} (k : Ksm ε) (ctx : Context) (m : SpcMessage)
    (playback : Bytes) (hb : ctx.Bind = .ok m)
    (h1 : Contains m.Spc (chr '-') = false) (h2 : Contains m.Spc (chr '_') = false)
    (h3 : Contains m.Spc (chr ' ') = true → Contains m.Spc (chr '/') = true)
    (hv : StdEncoding.DecodeString (ReplaceAll m.Spc (chr ' ') (chr '+')) = (playback, none)) :
    (license k ctx).handed = [playback] := by
  have hsel : (selectVariant m.Spc).2.1 = StdEncoding ∧
      (selectVariant m.Spc).2.2 = ReplaceAll m.Spc (chr ' ') (chr '+') := by
    rcases selectVariant_cases m.Spc with ⟨hu, _⟩ | ⟨_, _, h⟩ | ⟨_, hs, h⟩
    · rcases hu with hu | hu
      · rw [h1] at hu; exact absurd hu (by decide)
      · rw [h2] at hu; exact absurd hu (by decide)
    · rw [h]; exact ⟨rfl, rfl⟩
    · have hsp : Contains m.Spc (chr ' ') = false := by
        rcases hs with hs | hs
        · exact hs
        · cases hc : Contains m.Spc (chr ' ')
          · rfl
          · rw [h3 hc] at hs; exact absurd hs (by decide)
      rw [h, ReplaceAll_of_not_Contains _ _ _ hsp]; exact ⟨rfl, rfl⟩
  have hd : (selectVariant m.Spc).2.1.DecodeString (selectVariant m.Spc).2.2 =
      (playback, none) := by rw [hsel.1, hsel.2]; exact hv
  cases hk : k.GenCKC playback with
  | error err => rw [license_engine_error k ctx m playback err hb hd hk]; rfl
  | ok ckc => rw [license_success k ctx m playback ckc hb hd hk]; rfl

/-- C1, amended, at the SPC `A A/`: the engine receives the decoding of `A+A/`. -/
theorem C1_spaces_replaced_when_slash_witness :
    (license sampleKsm (jsonRequest "A A/")).handed = [[3, 224, 63]] :=
  C1_spaces_replaced_when_slash sampleKsm (jsonRequest "A A/") ⟨ascii ("A A/"), []⟩
    [3, 224, 63] rfl (by rfl) (by rfl) (fun _ => by rfl) (by rfl)

/-- C2: a request that is bound and answered made its calls with one encoding, the one
that decoded the SPC: its calls are the decode, the engine and the encode of the CKC the
engine returned, the response carries that encoding of the CKC, and the encoding is
`URLEncoding` exactly when the SPC contains `-` or `_` and `StdEncoding` exactly when it
contains neither. -/
theorem C2_response_variant {ε : Type} (k : Ksm ε) (ctx : Context) (m : SpcMessage)
    (resp : Response) (hb : ctx.Bind = .ok m) (hr : (license k ctx).result = .ok resp) :
    ∃ enc s playback ckc,
      (license k ctx).calls = [.DecodeString enc s, .GenCKC playback, .EncodeToString enc ckc] ∧
        k.GenCKC playback = .ok ckc ∧
        ckcText resp = some (enc.EncodeToString ckc) ∧
        (enc = URLEncoding ↔
          (Contains m.Spc (chr '-') = true ∨ Contains m.Spc (chr '_') = true)) ∧
        (enc = StdEncoding ↔
          (Contains m.Spc (chr '-') = false ∧ Contains m.Spc (chr '_') = false)) := by
  have hvar : ((selectVariant m.Spc).2.1 = URLEncoding ↔
        (Contains m.Spc (chr '-') = true ∨ Contains m.Spc (chr '_') = true)) ∧
      ((selectVariant m.Spc).2.1 = StdEncoding ↔
        (Contains m.Spc (chr '-') = false ∧ Contains m.Spc (chr '_') = false)) := by
    rcases selectVariant_cases m.Spc with ⟨hu, h⟩ | ⟨hn, _, h⟩ | ⟨hn, _, h⟩
    · rw [h]
      refine ⟨⟨fun _ => hu, fun _ => rfl⟩, ⟨fun he => absurd he URLEncoding_ne_StdEncoding, ?_⟩⟩
      rintro ⟨h1, h2⟩
      rcases hu with hu | hu
      · rw [h1] at hu; exact absurd hu (by decide)
      · rw [h2] at hu; exact absurd hu (by decide)
    all_goals
      rw [h]
      refine ⟨⟨fun he => absurd he.symm URLEncoding_ne_StdEncoding, ?_⟩, ⟨fun _ => hn, fun _ => rfl⟩⟩
      rintro (hu | hu)
      · rw [hn.1] at hu; exact absurd hu (by decide)
      · rw [hn.2] at hu; exact absurd hu (by decide)
  cases hd : (selectVariant m.Spc).2.1.DecodeString (selectVariant m.Spc).2.2 with
  | mk playback oerr =>
    cases oerr with
    | some err =>
      rw [license_decode_error k ctx m playback err hb hd] at hr
      exact absurd hr (by simp)
    | none =>
      cases hk : k.GenCKC playback with
      | error err =>
        rw [license_engine_error k ctx m playback err hb hd hk] at hr
        exact absurd hr (by simp)
      | ok ckc =>
        rw [license_success k ctx m playback ckc hb hd hk, resultEncoding_selectVariant] at hr ⊢
        simp only [Except.ok.injEq] at hr
        refine ⟨_, _, playback, ckc, rfl, hk, ?_, hvar⟩
        rw [← hr, ckcText_respond]

/-- C2 at the SPC `A-A_`: the response carries the URL-safe text `-_--`. -/
theorem C2_response_variant_witness :
    ∃ enc s playback ckc,
      (license sampleKsm (plainRequest "A-A_")).calls =
          [.DecodeString enc s, .GenCKC playback, .EncodeToString enc ckc] ∧
        sampleKsm.GenCKC playback = .ok ckc ∧
        ckcText (.Blob 200 "application/x-www-form-urlencoded" (ascii ("<ckc>-_--</ckc>"))) =
          some (enc.EncodeToString ckc) ∧
        (enc = URLEncoding ↔
          (Contains (ascii ("A-A_")) (chr '-') = true ∨
            Contains (ascii ("A-A_")) (chr '_') = true)) ∧
        (enc = StdEncoding ↔
          (Contains (ascii ("A-A_")) (chr '-') = false ∧
            Contains (ascii ("A-A_")) (chr '_') = false)) :=
  C2_response_variant sampleKsm (plainRequest "A-A_") ⟨ascii ("A-A_"), []⟩
    (.Blob 200 "application/x-www-form-urlencoded" (ascii ("<ckc>-_--</ckc>"))) rfl (by rfl)

/-- C3, as stated, fails.  The SPC `!` selects the standard variant and is not valid
standard base64; the handler returns no response with status 400 but panics with the
decode error, and behind the `Recover` middleware the client is answered with 500. -/
theorem C3_invalid_base64_is_not_400 :
    (selectVariant (ascii ("!"))).2.1 = StdEncoding ∧
      StdEncoding.DecodeString (ascii ("!")) = ([], some ⟨0⟩) ∧
      (license sampleKsm (jsonRequest "!")).result = .error (.base64 ⟨0⟩) ∧
      (Recover (license sampleKsm (jsonRequest "!")).result).code = 500 :=
  ⟨by rfl, by rfl, by rfl, by rfl⟩

/-- C3, amended: when the text the handler hands to the decoder of the selected variant
(the SPC, or the SPC with its spaces replaced) fails to decode, the handler panics with
the decode error after that one call, nothing is handed to the engine, and behind the
`Recover` middleware the answer has status 500. -/
theorem C3_decode_error_panics {ε : Type} (k : Ksm ε) (ctx : Context) (m : SpcMessage)
    (d : Bytes) (err : CorruptInputError) (hb : ctx.Bind = .ok m)
    (hd : (selectVariant m.Spc).2.1.DecodeString (selectVariant m.Spc).2.2 = (d, some err)) :
    (license k ctx).result = .error (.base64 err) ∧
      (license k ctx).calls =
        [.DecodeString (selectVariant m.Spc).2.1 (selectVariant m.Spc).2.2] ∧
      (license k ctx).handed = [] ∧
      (Recover (license k ctx).result).code = 500 := by
  rw [license_decode_error k ctx m d err hb hd]
  exact ⟨rfl, rfl, rfl, rfl⟩

/-- C3, amended, at the SPC `!`. -/
theorem C3_decode_error_panics_witness :
    (license sampleKsm (jsonRequest "!")).result = .error (.base64 ⟨0⟩) ∧
      (license sampleKsm (jsonRequest "!")).calls =
        [.DecodeString (selectVariant (ascii ("!"))).2.1 (selectVariant (ascii ("!"))).2.2] ∧
      (license sampleKsm (jsonRequest "!")).handed = [] ∧
      (Recover (license sampleKsm (jsonRequest "!")).result).code = 500 :=
  C3_decode_error_panics sampleKsm (jsonRequest "!") ⟨ascii ("!"), []⟩ [] ⟨0⟩ rfl (by rfl)

/-- C4, as stated, fails.  The SPC `AAAA` decodes to three zero bytes; when the engine
rejects them the handler returns no response: it panics with the engine's error, and
behind the `Recover` middleware the answer is 500 whatever the failure. -/
theorem C4_engine_error_is_not_caught :
    StdEncoding.DecodeString (ascii ("AAAA")) = ([0, 0, 0], none) ∧
      failingKsm.GenCKC [0, 0, 0] = .error "ksm: engine failure" ∧
      (license failingKsm (jsonRequest "AAAA")).result = .error (.ksm "ksm: engine failure") ∧
      (Recover (license failingKsm (jsonRequest "AAAA")).result).code = 500 :=
  ⟨by rfl, by rfl, by rfl, by rfl⟩

/-- C4, amended: when the SPC decodes and the engine returns an error, the handler panics
with that error; its calls are the decode and the engine call only, so nothing is
encoded and no CKC body is emitted, and behind the `Recover` middleware the answer has
status 500. -/
theorem C4_engine_error_panics {ε : Type} (k : Ksm ε) (ctx : Context) (m : SpcMessage)
    (playback : Bytes) (err : ε) (hb : ctx.Bind = .ok m)
    (hd : (selectVariant m.Spc).2.1.DecodeString (selectVariant m.Spc).2.2 = (playback, none))
    (hk : k.GenCKC playback = .error err) :
    (license k ctx).result = .error (.ksm err) ∧
      (license k ctx).calls =
        [.DecodeString (selectVariant m.Spc).2.1 (selectVariant m.Spc).2.2, .GenCKC playback] ∧
      (Recover (license k ctx).result).code = 500 := by
  rw [license_engine_error k ctx m playback err hb hd hk]
  exact ⟨rfl, rfl, rfl⟩

/-- C4, amended, at the SPC `AAAA` and the rejecting engine. -/
theorem C4_engine_error_panics_witness :
    (license failingKsm (jsonRequest "AAAA")).result = .error (.ksm "ksm: engine failure") ∧
      (license failingKsm (jsonRequest "AAAA")).calls =
        [.DecodeString (selectVariant (ascii ("AAAA"))).2.1 (selectVariant (ascii ("AAAA"))).2.2,
          .GenCKC [0, 0, 0]] ∧
      (Recover (license failingKsm (jsonRequest "AAAA")).result).code = 500 :=
  C4_engine_error_panics failingKsm (jsonRequest "AAAA") ⟨ascii ("AAAA"), []⟩ [0, 0, 0]
    "ksm: engine failure" rfl (by rfl) rfl

/-- C5: when the body binds, the SPC decodes and the engine returns a CKC, the handler
answers 200.  With the request header `Content-Type` equal to `application/json` the
response is the JSON `CkcResult` of the base64 CKC; with any other value, or no header,
it is a blob of type `application/x-www-form-urlencoded` whose body is `<ckc>`, the
base64 CKC, `</ckc>`. -/
theorem C5_content_negotiation {ε : Type} (k : Ksm ε) (ctx : Context) (m : SpcMessage)
    (playback ckc : Bytes) (hb : ctx.Bind = .ok m)
    (hd : (selectVariant m.Spc).2.1.DecodeString (selectVariant m.Spc).2.2 = (playback, none))
    (hk : k.GenCKC playback = .ok ckc) :
    (ctx.ContentType = some "application/json" →
        (license k ctx).result =
          .ok (.JSON 200 (.ckcResult ⟨(selectVariant m.Spc).2.1.EncodeToString ckc⟩))) ∧
      (ctx.ContentType ≠ some "application/json" →
        (license k ctx).result =
          .ok (.Blob 200 "application/x-www-form-urlencoded"
            (ascii ("<ckc>") ++ (selectVariant m.Spc).2.1.EncodeToString ckc ++
              ascii ("</ckc>")))) := by
  rw [license_success k ctx m playback ckc hb hd hk, resultEncoding_selectVariant]
  constructor
  · intro hct
    simp [respond, Context.HeaderGet, hct]
  · intro hct
    have hne : ctx.HeaderGet ≠ "application/json" := by
      unfold Context.HeaderGet
      cases h : ctx.ContentType with
      | none => decide
      | some v =>
        rw [h] at hct
        simpa using hct
    unfold respond
    rw [if_neg hne]
    split <;> rfl

/-- C5 at the SPC `AAAA`, sent as JSON and sent without `Content-Type` header. -/
theorem C5_content_negotiation_witness :
    (license sampleKsm (jsonRequest "AAAA")).result =
        .ok (.JSON 200
          (.ckcResult ⟨(selectVariant (ascii ("AAAA"))).2.1.EncodeToString [251, 255, 190]⟩)) ∧
      (license sampleKsm (plainRequest "AAAA")).result =
        .ok (.Blob 200 "application/x-www-form-urlencoded"
          (ascii ("<ckc>") ++ (selectVariant (ascii ("AAAA"))).2.1.EncodeToString [251, 255, 190] ++
            ascii ("</ckc>"))) :=
  ⟨(C5_content_negotiation sampleKsm (jsonRequest "AAAA") ⟨ascii ("AAAA"), []⟩ [0, 0, 0]
      [251, 255, 190] rfl (by rfl) rfl).1 rfl,
    (C5_content_negotiation sampleKsm (plainRequest "AAAA") ⟨ascii ("AAAA"), []⟩ [0, 0, 0]
      [251, 255, 190] rfl (by rfl) rfl).2 (by decide)⟩

/-- C6, as stated, fails.  `ReadASk` accepts the well-formed hexadecimal `ask` of 30
characters and returns its 15 bytes, and it accepts the empty `ask`. -/
theorem C6_short_ask_is_accepted :
    (ascii ("000102030405060708090a0b0c0d0e")).length = 30 ∧
      ReadASk ⟨⟨[], [], ascii ("000102030405060708090a0b0c0d0e")⟩⟩ =
        .ok [0, 1, 2, 3, 4, 5, 6, 7, 8, 9, 10, 11, 12, 13, 14] ∧
      ReadASk ⟨⟨[], [], []⟩⟩ = .ok [] :=
  ⟨by rfl, by rfl, by rfl⟩

/-- C6, amended: `ReadASk` fails exactly on an `ask` that is not well-formed hexadecimal.
An `ask` of even length made of hexadecimal digits, of 32 characters or not, is accepted
and gives half as many bytes; an `ask` of odd length or with another byte makes it
panic. -/
theorem C6_ReadASk_fails_iff_illFormed (cfg : Config) :
    ((cfg.FairPlay.Ask.length % 2 = 0 ∧ ∀ c ∈ cfg.FairPlay.Ask, IsHexDigit c) →
        ∃ ask, ReadASk cfg = .ok ask ∧ 2 * ask.length = cfg.FairPlay.Ask.length) ∧
      ((cfg.FairPlay.Ask.length % 2 = 1 ∨ ∃ c ∈ cfg.FairPlay.Ask, ¬ IsHexDigit c) →
        ∃ err, ReadASk cfg = .error err) := by
  constructor
  · rintro ⟨hlen, hall⟩
    obtain ⟨bs, hbs, hl, _⟩ := hexDecodeFrom_wellFormed cfg.FairPlay.Ask hlen hall []
    refine ⟨bs, ?_, hl⟩
    simp only [ReadASk, hexDecodeString, hbs, List.nil_append]
  · intro hbad
    have hne := hexDecodeFrom_illFormed cfg.FairPlay.Ask hbad []
    cases hd : hexDecodeFrom cfg.FairPlay.Ask [] with
    | mk bs oerr =>
      rw [hd] at hne
      cases oerr with
      | none => exact absurd rfl hne
      | some err => exact ⟨err, by simp only [ReadASk, hexDecodeString, hd]⟩

set_option maxRecDepth 100000 in
/-- C6, amended, at an `ask` of 30 hexadecimal characters, which is accepted, and at
`0g`, which is refused. -/
theorem C6_ReadASk_fails_iff_illFormed_witness :
    (∃ ask, ReadASk ⟨⟨[], [], ascii ("000102030405060708090a0b0c0d0e")⟩⟩ = .ok ask ∧
        2 * ask.length = 30) ∧
      ∃ err, ReadASk ⟨⟨[], [], ascii ("0g")⟩⟩ = .error err :=
  ⟨(C6_ReadASk_fails_iff_illFormed ⟨⟨[], [], ascii ("000102030405060708090a0b0c0d0e")⟩⟩).1
      ⟨by rfl, by decide⟩,
    (C6_ReadASk_fails_iff_illFormed ⟨⟨[], [], ascii ("0g")⟩⟩).2
      (Or.inr ⟨chr 'g', by decide, by decide⟩)⟩

/-- C7: for an `ask` of exactly 32 lowercase hexadecimal characters `ReadASk` succeeds
and returns 16 bytes whose lowercase hexadecimal encoding is the `ask`. -/
theorem C7_ReadASk_roundtrip (cfg : Config) (hlen : cfg.FairPlay.Ask.length = 32)
    (hlow : ∀ c ∈ cfg.FairPlay.Ask, IsLowerHex c) :
    ∃ ask, ReadASk cfg = .ok ask ∧ ask.length = 16 ∧
      hexEncodeToString ask = cfg.FairPlay.Ask := by
  obtain ⟨bs, hbs, hl, henc⟩ := hexDecodeFrom_wellFormed cfg.FairPlay.Ask (by rw [hlen])
    (fun c hc => Or.inl (hlow c hc)) []
  refine ⟨bs, ?_, by omega, henc hlow⟩
  simp only [ReadASk, hexDecodeString, hbs, List.nil_append]

set_option maxRecDepth 100000 in
/-- C7 at the `ask` `000102030405060708090a0b0c0d0e0f`. -/
theorem C7_ReadASk_roundtrip_witness :
    ∃ ask, ReadASk ⟨⟨[], [], ascii ("000102030405060708090a0b0c0d0e0f")⟩⟩ = .ok ask ∧
      ask.length = 16 ∧ hexEncodeToString ask = ascii ("000102030405060708090a0b0c0d0e0f") :=
  C7_ReadASk_roundtrip ⟨⟨[], [], ascii ("000102030405060708090a0b0c0d0e0f")⟩⟩ (by rfl)
    (by decide)

/-- C8: when the body does not bind, the handler answers with status 400 and the JSON
`ErrorMessage` of status 400 whose message is the text of the binding error, and it makes
no call: neither a base64 decode nor an engine call. -/
theorem C8_bind_error_is_400 {ε : Type} (k : Ksm ε) (ctx : Context) (err : String)
    (hb : ctx.Bind = .error err) :
    (license k ctx).result = .ok (.JSON 400 (.errorMessage ⟨400, err⟩)) ∧
      (license k ctx).calls = [] := by
  rw [license_bind_error k ctx err hb]
  exact ⟨rfl, rfl⟩

/-- C8 at a request whose body ends early. -/
theorem C8_bind_error_is_400_witness :
    (license sampleKsm unboundRequest).result =
        .ok (.JSON 400 (.errorMessage ⟨400, "unexpected EOF"⟩)) ∧
      (license sampleKsm unboundRequest).calls = [] :=
  C8_bind_error_is_400 sampleKsm unboundRequest "unexpected EOF" rfl

/-- C9: a response with status 200 comes from a bound request whose SPC decoded to the
bytes the engine was called with, and the base64 text of the response, decoded with the
variant selected for the request, is without error exactly the CKC the engine returned. -/
theorem C9_ckc_intact {ε : Type} (k : Ksm ε) (ctx : Context) (resp : Response)
    (hr : (license k ctx).result = .ok resp) (h200 : resp.code = 200) :
    ∃ m playback ckc text, ctx.Bind = .ok m ∧
      (selectVariant m.Spc).2.1.DecodeString (selectVariant m.Spc).2.2 = (playback, none) ∧
      (license k ctx).handed = [playback] ∧
      k.GenCKC playback = .ok ckc ∧
      ckcText resp = some text ∧
      (selectVariant m.Spc).2.1.DecodeString text = (ckc, none) := by
  cases hb : ctx.Bind with
  | error err =>
    rw [license_bind_error k ctx err hb] at hr
    simp only [Except.ok.injEq] at hr
    rw [← hr] at h200
    simp [Response.code] at h200
  | ok m =>
    cases hd : (selectVariant m.Spc).2.1.DecodeString (selectVariant m.Spc).2.2 with
    | mk playback oerr =>
      cases oerr with
      | some err =>
        rw [license_decode_error k ctx m playback err hb hd] at hr
        exact absurd hr (by simp)
      | none =>
        cases hk : k.GenCKC playback with
        | error err =>
          rw [license_engine_error k ctx m playback err hb hd hk] at hr
          exact absurd hr (by simp)
        | ok ckc =>
          rw [license_success k ctx m playback ckc hb hd hk, resultEncoding_selectVariant] at hr ⊢
          simp only [Except.ok.injEq] at hr
          refine ⟨m, playback, ckc, (selectVariant m.Spc).2.1.EncodeToString ckc, rfl, hd, rfl,
            hk, ?_, ?_⟩
          · rw [← hr, ckcText_respond]
          · exact DecodeString_EncodeToString (selectVariant_wellFormed m.Spc) ckc

/-- C9 at the JSON request with SPC `A-A_`, answered with the text `-_--`. -/
theorem C9_ckc_intact_witness :
    ∃ m playback ckc text, (jsonRequest "A-A_").Bind = .ok m ∧
      (selectVariant m.Spc).2.1.DecodeString (selectVariant m.Spc).2.2 = (playback, none) ∧
      (license sampleKsm (jsonRequest "A-A_")).handed = [playback] ∧
      sampleKsm.GenCKC playback = .ok ckc ∧
      ckcText (.JSON 200 (.ckcResult ⟨ascii ("-_--")⟩)) = some text ∧
      (selectVariant m.Spc).2.1.DecodeString text = (ckc, none) :=
  C9_ckc_intact sampleKsm (jsonRequest "A-A_") (.JSON 200 (.ckcResult ⟨ascii ("-_--")⟩))
    (by rfl) rfl

/-- C10: for an SPC that contains `-` or `_` and also `+`, `/` or a space, the handler
makes one call, the URL-safe decode of the SPC as received; the decode fails, the handler
ends in a panic with the decode error instead of a response, and nothing is handed to
the engine. -/
theorem C10_urlsafe_takes_precedence {ε : Type} (k : Ksm ε) (ctx : Context) (m : SpcMessage)
    (hb : ctx.Bind = .ok m)
    (hu : Contains m.Spc (chr '-') = true ∨ Contains m.Spc (chr '_') = true)
    (hx : Contains m.Spc (chr '+') = true ∨ Contains m.Spc (chr '/') = true ∨
      Contains m.Spc (chr ' ') = true) :
    ∃ err, (license k ctx).calls = [.DecodeString URLEncoding m.Spc] ∧
      (license k ctx).result = .error (.base64 err) ∧
      (license k ctx).handed = [] := by
  have hsel : selectVariant m.Spc = ("URL", URLEncoding, m.Spc) := by
    rcases selectVariant_cases m.Spc with ⟨_, h⟩ | ⟨hn, _, _⟩ | ⟨hn, _, _⟩
    · exact h
    all_goals
      rcases hu with hu | hu
      · rw [hn.1] at hu; exact absurd hu (by decide)
      · rw [hn.2] at hu; exact absurd hu (by decide)
  have hfail : (URLEncoding.DecodeString m.Spc).2 ≠ none := by
    obtain ⟨fp, fs, fsp⟩ := URLEncoding_foreign
    rcases hx with hx | hx | hx
    · exact DecodeString_foreign _ _ fp _ ((Contains_iff _ _).mp hx)
    · exact DecodeString_foreign _ _ fs _ ((Contains_iff _ _).mp hx)
    · exact DecodeString_foreign _ _ fsp _ ((Contains_iff _ _).mp hx)
  cases hd : URLEncoding.DecodeString m.Spc with
  | mk d oerr =>
    rw [hd] at hfail
    cases oerr with
    | none => exact absurd rfl hfail
    | some err =>
      have hd2 : (selectVariant m.Spc).2.1.DecodeString (selectVariant m.Spc).2.2 =
          (d, some err) := by rw [hsel]; exact hd
      rw [license_decode_error k ctx m d err hb hd2, hsel]
      exact ⟨err, rfl, rfl, rfl⟩

/-- C10 at the SPC `A-A `, whose space is not replaced. -/
theorem C10_urlsafe_takes_precedence_witness :
    ∃ err, (license sampleKsm (jsonRequest "A-A ")).calls =
        [.DecodeString URLEncoding (ascii ("A-A "))] ∧
      (license sampleKsm (jsonRequest "A-A ")).result = .error (.base64 err) ∧
      (license sampleKsm (jsonRequest "A-A ")).handed = [] :=
  C10_urlsafe_takes_precedence sampleKsm (jsonRequest "A-A ") ⟨ascii ("A-A "), []⟩ rfl
    (Or.inl (by rfl)) (Or.inr (Or.inr (by rfl)))

end Afps
